import Mathlib

/-!
Verification development for the pNMR FID-simulation repository.

Shallow embedding of the source files
  * `FID_simulation.py` (Vector3D, PermanentMagnet, Material, Probe, Coil),
  * `FreeInductionDecay/analysis/hilbert_transform.py` (HilbertTransform),
  * `FreeInductionDecay/analysis/phase_fit.py` (PhaseFitFID.get_fit_range).

Python floats are modelled as real numbers; numpy arrays as lists; code
that can raise a Python exception returns `Except PyError`.  Division is
the total real division (numpy float division by zero does not raise; it
yields Inf/NaN, which the claims here never need to distinguish from a
returned value, only from a raised error).
-/

/-- Python exception classes relevant to this repository, together with the
error kinds named by the specification (which the source never defines or
raises, but which the claims mention). -/
inductive PyError where
  | attributeError
  | zeroDivisionError
  | valueError
  | dimensionError
  | invalidMaterial
  | orderingError
  | noSignalDetected
  | singularGeometry
  deriving DecidableEq, Repr

/-- Class `Vector3D` from FID_simulation.py: three real components. -/
structure Vector3D where
  x : ℝ
  y : ℝ
  z : ℝ

/-- Method `Vector3D.mag`: `sqrt(sum(val**2))`. -/
noncomputable def Vector3D.mag (v : Vector3D) : ℝ :=
  Real.sqrt (v.x ^ 2 + v.y ^ 2 + v.z ^ 2)

/-- Proton magnetic moment constant `μₚ` (source line 21, in the script's
consistent base-unit system). -/
noncomputable def μₚ : ℝ := 1.41060679736e-26

/-- Gyromagnetic ratio of the proton `γₚ` (source line 22). -/
noncomputable def γₚ : ℝ := 2.6752218744e8

/-- Boltzmann constant (from the `numericalunits` import, SI value). -/
noncomputable def kB : ℝ := 1.380649e-23

/-- Avogadro constant (from the `numericalunits` import, SI value). -/
noncomputable def NA : ℝ := 6.02214076e23

/-- Class `Material` from FID_simulation.py (name/formula are informational). -/
structure Material where
  density : ℝ
  molar_mass : ℝ
  T1 : ℝ
  T2 : ℝ

/-- Property `Material.number_density`: `NA * density / molar_mass`. -/
noncomputable def Material.number_density (m : Material) : ℝ :=
  NA * m.density / m.molar_mass

/-- The per-cell attributes set by `Probe.apply_rf_field` (source lines
138-147): the RF field `B1` at the cell position and the magnetization
components.  Before `apply_rf_field` runs, none of these attributes exist
on a cell (accessing them raises `AttributeError`). -/
structure RFState where
  B1 : Vector3D
  mu_x : ℝ
  mu_y : ℝ
  mu_z : ℝ
  mu_T : ℝ

/-- Class `Probe.Cell`: a sampled point of the probe volume carrying its static
field `B0`; `rf = none` models a cell before RF excitation. -/
structure Cell where
  x : ℝ
  y : ℝ
  z : ℝ
  B0 : Vector3D
  rf : Option RFState

/-- Model of the numpy random machinery.  `mt seed call lo hi i` is the
`i`-th variate of the `call`-th `uniform(lo, hi, size)` call made on
`np.random.RandomState(seed)`: a fixed deterministic stream per seed.
`globalStream` models the process-wide `np.random` module state, which the
source never touches. -/
structure NumpyEnv where
  mt : ℕ → ℕ → ℝ → ℝ → ℕ → ℝ
  globalStream : ℕ → ℝ

/-- Class `Probe` from FID_simulation.py. -/
structure Probe where
  length : ℝ
  radius : ℝ
  V_cell : ℝ
  material : Material
  temp : ℝ
  B_field : ℝ → ℝ → ℝ → Vector3D
  N_cells : ℕ
  nuclear_polarization : ℝ
  magnetization : ℝ
  dipole_moment_mag : ℝ
  cells : List Cell

/-- Constructor `Probe.__init__` (source lines 104-132, with `initialize_cells`
inlined): radius = diameter/2, cell volume, Boltzmann polarization,
magnetization, dipole moment, and the seeded cell sampling
`r = sqrt(uniform(0, radius²))`, `phi = uniform(0, 2π)`,
`z = uniform(-length/2, length/2)`, cell position
`(r sin phi, r cos phi, z)` with the static field stored per cell. -/
noncomputable def Probe.init (env : NumpyEnv) (length diameter : ℝ)
    (material : Material) (temp : ℝ) (B_field : ℝ → ℝ → ℝ → Vector3D)
    (N_cells : ℕ) (seed : ℕ) : Probe :=
  let radius := diameter / 2
  let V_cell := length * Real.pi * radius ^ 2
  let expon := μₚ * (B_field 0 0 0).mag / (kB * temp)
  let pol := (Real.exp expon - Real.exp (-expon)) /
             (Real.exp expon + Real.exp (-expon))
  let mag := μₚ * material.number_density * pol
  let cells := (List.range N_cells).map (fun i =>
    let r := Real.sqrt (env.mt seed 0 0 (radius ^ 2) i)
    let phi := env.mt seed 1 0 (2 * Real.pi) i
    let z := env.mt seed 2 (-(length / 2)) (length / 2) i
    { x := r * Real.sin phi
      y := r * Real.cos phi
      z := z
      B0 := B_field (r * Real.sin phi) (r * Real.cos phi) z
      rf := none })
  { length := length
    radius := radius
    V_cell := V_cell
    material := material
    temp := temp
    B_field := B_field
    N_cells := N_cells
    nuclear_polarization := pol
    magnetization := mag
    dipole_moment_mag := mag * V_cell / N_cells
    cells := cells }

/-- Method `Probe.apply_rf_field` (source lines 134-147): for each cell store the
RF field at the cell position, then
`mu_x = mu_y = sin(γₚ·|B1|/2·time)`, `mu_z = cos(γₚ·|B1|/2·time)`,
`mu_T = sqrt(mu_x² + mu_y²)`. -/
noncomputable def Probe.apply_rf_field (p : Probe)
    (rf_field : ℝ → ℝ → ℝ → Vector3D) (time : ℝ) : Probe :=
  { p with cells := p.cells.map (fun c =>
      let B1 := rf_field c.x c.y c.z
      let mu_x := Real.sin (γₚ * B1.mag / 2 * time)
      let mu_y := Real.sin (γₚ * B1.mag / 2 * time)
      let mu_z := Real.cos (γₚ * B1.mag / 2 * time)
      { c with rf := some { B1 := B1, mu_x := mu_x, mu_y := mu_y,
                            mu_z := mu_z,
                            mu_T := Real.sqrt (mu_x ^ 2 + mu_y ^ 2) } }) }

/-- One cell's summand in `Probe.relax_B_dot_mu` (source lines 152-156):
`B1.x·(mu_T·sin((γₚ|B0|−mix)t)·e^{−t/T2}) + B1.y·(mu_T·cos(...)·e^{−t/T2})
+ B1.z·mu_z`; accessing the attributes of an unexcited cell raises
`AttributeError`. -/
noncomputable def cellTerm (T2 t mix : ℝ) (c : Cell) : Except PyError ℝ :=
  match c.rf with
  | none => Except.error PyError.attributeError
  | some s => Except.ok
      (s.B1.x * (s.mu_T * Real.sin ((γₚ * c.B0.mag - mix) * t) *
                 Real.exp (-(t / T2))) +
       s.B1.y * (s.mu_T * Real.cos ((γₚ * c.B0.mag - mix) * t) *
                 Real.exp (-(t / T2))) +
       s.B1.z * s.mu_z)

/-- The list comprehension inside `np.sum(...)` of `relax_B_dot_mu`,
evaluated left to right, propagating the first raised exception. -/
noncomputable def exceptTerms (T2 t mix : ℝ) : List Cell → Except PyError (List ℝ)
  | [] => Except.ok []
  | c :: cs =>
    match cellTerm T2 t mix c with
    | Except.error e => Except.error e
    | Except.ok r =>
      match exceptTerms T2 t mix cs with
      | Except.error e => Except.error e
      | Except.ok rs => Except.ok (r :: rs)

/-- Method `Probe.relax_B_dot_mu` (source lines 149-156), the spec's
`integrate_signal`. -/
noncomputable def Probe.relax_B_dot_mu (p : Probe) (t mix_down : ℝ) :
    Except PyError ℝ :=
  match exceptTerms p.material.T2 t mix_down p.cells with
  | Except.error e => Except.error e
  | Except.ok l => Except.ok l.sum

/-- Class `Coil` from FID_simulation.py (constructor stores turns, length,
radius = diameter/2, current). -/
structure Coil where
  turns : ℝ
  length : ℝ
  radius : ℝ
  current : ℝ

/-- Constructor `Coil.__init__` (source lines 163-175). -/
noncomputable def Coil.init (turns length diameter current : ℝ) : Coil :=
  { turns := turns, length := length, radius := diameter / 2,
    current := current }

/-- Method `Coil.pickup_flux` (source lines 219-223):
`turns * probe.relax_B_dot_mu(t, mix_down) / current`. -/
noncomputable def Coil.pickup_flux (c : Coil) (p : Probe) (t mix_down : ℝ) :
    Except PyError ℝ :=
  match p.relax_B_dot_mu t mix_down with
  | Except.error e => Except.error e
  | Except.ok r => Except.ok (c.turns * r / c.current)

/-- Modelled from the spec: one cell's contribution to the claimed value
of `integrate_signal`, written from the spec's formula
`B1·x̂ · muT·sin((γₚ|B0| − mix_down)t)·exp(−t/T2) + B1·ŷ · muT·cos(...)·
exp(−t/T2) + B1·ẑ · mu_z` using the cell's stored local values.  Cells
without stored values contribute 0 (the spec only speaks about ensembles
after RF excitation). -/
noncomputable def specCellContribution (T2 t mix : ℝ) (c : Cell) : ℝ :=
  match c.rf with
  | none => 0
  | some s =>
      s.B1.x * (s.mu_T * Real.sin ((γₚ * c.B0.mag - mix) * t) *
                Real.exp (-(t / T2))) +
      s.B1.y * (s.mu_T * Real.cos ((γₚ * c.B0.mag - mix) * t) *
                Real.exp (-(t / T2))) +
      s.B1.z * s.mu_z

/-- Modelled from the spec: the claimed value of
`integrate_signal(t, mix_down)`, the sum over all cells. -/
noncomputable def specIntegrateSignal (p : Probe) (t mix : ℝ) : ℝ :=
  (p.cells.map (specCellContribution p.material.T2 t mix)).sum

/-- Function `np.sign`: 1 for positive, -1 for negative, 0 for zero. -/
noncomputable def npSign (x : ℝ) : ℝ :=
  if 0 < x then 1 else if x < 0 then -1 else 0

/-- Running sums with accumulator, implementing `np.cumsum`. -/
def cumsumFrom (acc : ℝ) : List ℝ → List ℝ
  | [] => []
  | x :: xs => (acc + x) :: cumsumFrom (acc + x) xs

/-- Function `np.cumsum` on a list of reals. -/
def cumsum (l : List ℝ) : List ℝ := cumsumFrom 0 l

/-- The discrete Fourier transform used by `np.fft`/`scipy.fftpack`:
`X_k = Σ_n x_n · exp(-2πi·k·n/N)`. -/
noncomputable def dft (x : List ℂ) : List ℂ :=
  (List.range x.length).map (fun k =>
    ∑ n ∈ Finset.range x.length,
      x.getD n 0 *
        Complex.exp (((-(2 * Real.pi * k * n / x.length) : ℝ) : ℂ) * Complex.I))

/-- The inverse discrete Fourier transform:
`x_n = (1/N) Σ_k X_k · exp(2πi·k·n/N)`. -/
noncomputable def idft (X : List ℂ) : List ℂ :=
  (List.range X.length).map (fun n =>
    (∑ k ∈ Finset.range X.length,
      X.getD k 0 *
        Complex.exp (((2 * Real.pi * k * n / X.length : ℝ) : ℂ) * Complex.I)) /
    (X.length : ℂ))

/-- The spectral multiplier of `scipy.signal.hilbert`: for even `N`,
`h[0] = h[N/2] = 1`, `h[k] = 2` for `0 < k < N/2`, else 0; for odd `N`,
`h[0] = 1`, `h[k] = 2` for `0 < k ≤ (N-1)/2`, else 0. -/
def hilbertMultiplier (N k : ℕ) : ℂ :=
  if k = 0 then 1
  else if 2 * k < N then 2
  else if 2 * k = N then 1
  else 0

/-- Function `scipy.signal.hilbert`: the analytic signal
`ifft(fft(x) * h)` of a real input. -/
noncomputable def scipyHilbert (x : List ℝ) : List ℂ :=
  let X := dft (x.map Complex.ofReal)
  idft ((List.range x.length).map (fun k => hilbertMultiplier x.length k * X.getD k 0))

/-- Class `HilbertTransform` from hilbert_transform.py: stores `time = times/ms`,
`flux = flux/uV` and the analytic signal `h = hilbert(flux)`. -/
structure HilbertTransform where
  time : List ℝ
  flux : List ℝ
  h : List ℂ

/-- Constructor `HilbertTransform.__init__` (hilbert_transform.py lines 6-12): raises
`AttributeError` when `len(times) != len(flux)`; `msU` and `uVU` are the
`ms` and `uV` conversion factors of the script's unit system. -/
noncomputable def HilbertTransform.init (msU uVU : ℝ) (times flux : List ℝ) :
    Except PyError HilbertTransform :=
  if times.length ≠ flux.length then Except.error PyError.attributeError
  else Except.ok
    { time := times.map (fun t => t / msU)
      flux := flux.map (fun f => f / uVU)
      h := scipyHilbert (flux.map (fun f => f / uVU)) }

/-- Method `self.real()`: real part of the analytic signal. -/
noncomputable def HilbertTransform.real (H : HilbertTransform) : List ℝ :=
  H.h.map Complex.re

/-- Method `self.imag()`: imaginary part of the analytic signal. -/
noncomputable def HilbertTransform.imag (H : HilbertTransform) : List ℝ :=
  H.h.map Complex.im

/-- Method `HilbertTransform.PhaseFunction` (hilbert_transform.py lines 20-25).
The source first assigns `phi = arctan2(imag, real)` and immediately
overwrites it with `phi = arctan(imag/real)`; only the `arctan` value
survives.  Then `oscillations = cumsum(π·(sign(flux[1:]) != sign(flux[:-1])))`
is prepended with 0 and added elementwise. -/
noncomputable def HilbertTransform.PhaseFunction (H : HilbertTransform) :
    List ℝ × List ℝ :=
  let phi := List.zipWith (fun im re => Real.arctan (im / re)) H.imag H.real
  let steps := List.zipWith
    (fun prev next => if npSign next = npSign prev then (0 : ℝ) else Real.pi)
    H.flux.dropLast H.flux.tail
  (H.time, List.zipWith (fun a b => a + b) phi ((0 : ℝ) :: cumsum steps))

/-- Method `HilbertTransform.EnvelopeFunction` (hilbert_transform.py lines 27-28). -/
noncomputable def HilbertTransform.EnvelopeFunction (H : HilbertTransform) :
    List ℝ × List ℝ :=
  (H.time, List.zipWith (fun im re => Real.sqrt (im ^ 2 + re ^ 2)) H.imag H.real)

/-- Modelled from the spec: `atan2(y, x)`, the argument of the complex
number `x + y·i`. -/
noncomputable def atan2 (y x : ℝ) : ℝ := Complex.arg ((x : ℂ) + (y : ℂ) * Complex.I)

/-- Modelled from the spec (claim C3's reading of `PhaseFunction`): the raw
phase is `atan2(imag, real)` and π times the running count of sign changes
of the raw waveform is added to it. -/
noncomputable def specPhaseFunction (H : HilbertTransform) : List ℝ × List ℝ :=
  let phi := List.zipWith (fun im re => atan2 im re) H.imag H.real
  let steps := List.zipWith
    (fun prev next => if npSign next = npSign prev then (0 : ℝ) else Real.pi)
    H.flux.dropLast H.flux.tail
  (H.time, List.zipWith (fun a b => a + b) phi ((0 : ℝ) :: cumsum steps))

/-- The number of adjacent sign changes in a waveform (the spec's "running
count of sign changes" evaluated on a prefix). -/
noncomputable def countSignChanges : List ℝ → ℕ
  | [] => 0
  | [_] => 0
  | a :: b :: rest =>
    (if npSign b = npSign a then 0 else 1) + countSignChanges (b :: rest)

/-- Function `np.min` over a list: raises `ValueError` on an empty array. -/
noncomputable def npMinE (l : List ℝ) : Except PyError ℝ :=
  match l with
  | [] => Except.error PyError.valueError
  | x :: xs => Except.ok (xs.foldl min x)

/-- Function `np.max` over a list: raises `ValueError` on an empty array. -/
noncomputable def npMaxE (l : List ℝ) : Except PyError ℝ :=
  match l with
  | [] => Except.error PyError.valueError
  | x :: xs => Except.ok (xs.foldl max x)

/-- The `np.max([t_min, pretrigger])` clamp of phase_fit.py line 71
(skipped when the pretrigger is `None`). -/
noncomputable def clampLow : Option ℝ → ℝ → ℝ
  | some p, v => max v p
  | none, v => v

/-- The `np.min([t_max, readout_length])` clamp of phase_fit.py line 73
(skipped when the readout length is `None`). -/
noncomputable def clampHigh : Option ℝ → ℝ → ℝ
  | some r, v => min v r
  | none, v => v

/-- The edge-ignore mask of phase_fit.py lines 74-75 on a (time, env)
sample: `t_min + edge_ignore < t` and `t < t_max - edge_ignore`. -/
noncomputable def edgeMask (t_min t_max edge_ignore : ℝ) (q : ℝ × ℝ) : Bool :=
  decide (t_min + edge_ignore < q.1) && decide (q.1 < t_max - edge_ignore)

/-- Method `PhaseFitFID.get_fit_range` (phase_fit.py lines 67-82), over parallel
`time`/`env` arrays: clamp `[t_min, t_max]` by pretrigger and readout
length, build the edge-ignore mask, threshold the envelope at
`max(env[mask_edge]) * frac`, and return the first masked time and the
first unmasked time after it.  Each empty-array reduction raises numpy's
`ValueError`. -/
noncomputable def get_fit_range (pretrigger readout_length : Option ℝ)
    (edge_ignore frac : ℝ) (time env : List ℝ) : Except PyError (ℝ × ℝ) := do
  let tmin0 ← npMinE time
  let tmax0 ← npMaxE time
  let t_min := clampLow pretrigger tmin0
  let t_max := clampHigh readout_length tmax0
  let pairs := time.zip env
  let maxEnvEdge ← npMaxE ((pairs.filter (edgeMask t_min t_max edge_ignore)).map Prod.snd)
  let thres := maxEnvEdge * frac
  let maskP : ℝ × ℝ → Bool := fun q =>
    edgeMask t_min t_max edge_ignore q && decide (thres < q.2)
  let tmin1 ← npMinE ((pairs.filter maskP).map Prod.fst)
  let tmax1 ← npMinE
    ((pairs.filter (fun q => decide (tmin1 < q.1) && !(maskP q))).map Prod.fst)
  Except.ok (tmin1, tmax1)

/-- A cell before RF excitation, used in concrete instances. -/
def cell0 : Cell :=
  { x := 0, y := 0, z := 0, B0 := { x := 0, y := 0, z := 1 }, rf := none }

/-- A cell after RF excitation whose RF field vanished at its position. -/
def cellRF : Cell :=
  { x := 0, y := 0, z := 0, B0 := { x := 0, y := 0, z := 1 },
    rf := some { B1 := { x := 0, y := 0, z := 0 },
                 mu_x := 0, mu_y := 0, mu_z := 1, mu_T := 0 } }

/-- A concrete material with `T2 = 1`. -/
def mat1 : Material := { density := 1, molar_mass := 1, T1 := 1, T2 := 1 }

/-- A concrete material with `T2 = 0`. -/
def mat0 : Material := { density := 1, molar_mass := 1, T1 := 1, T2 := 0 }

/-- A concrete one-cell probe whose cell has not been RF-excited. -/
def probeNoRF : Probe :=
  { length := 1, radius := 1, V_cell := 1, material := mat1, temp := 1,
    B_field := fun _ _ _ => { x := 0, y := 0, z := 1 }, N_cells := 1,
    nuclear_polarization := 0, magnetization := 0, dipole_moment_mag := 0,
    cells := [cell0] }

/-- A concrete one-cell RF-excited probe whose material has `T2 = 0`. -/
def probeT2zero : Probe :=
  { length := 1, radius := 1, V_cell := 1, material := mat0, temp := 1,
    B_field := fun _ _ _ => { x := 0, y := 0, z := 1 }, N_cells := 1,
    nuclear_polarization := 0, magnetization := 0, dipole_moment_mag := 0,
    cells := [cellRF] }

lemma exceptTerms_ok (T2 t mix : ℝ) (l : List Cell)
    (h : ∀ c ∈ l, c.rf.isSome) :
    exceptTerms T2 t mix l = Except.ok (l.map (specCellContribution T2 t mix)) := by
  induction l with
  | nil => rfl
  | cons c cs ih =>
    have hc : c.rf.isSome := h c (List.mem_cons_self c cs)
    obtain ⟨s, hs⟩ := Option.isSome_iff_exists.mp hc
    have ihcs := ih (fun d hd => h d (List.mem_cons_of_mem c hd))
    simp only [exceptTerms, cellTerm, hs, ihcs, List.map_cons,
      specCellContribution]

lemma exceptTerms_err (T2 t mix : ℝ) (l : List Cell)
    (h : ∃ c ∈ l, c.rf = none) :
    exceptTerms T2 t mix l = Except.error PyError.attributeError := by
  induction l with
  | nil => simp at h
  | cons c cs ih =>
    rcases h with ⟨d, hd, hnone⟩
    rcases List.mem_cons.mp hd with rfl | hmem
    · simp only [exceptTerms, cellTerm, hnone]
    · cases hc : c.rf with
      | none => simp only [exceptTerms, cellTerm, hc]
      | some s =>
        have := ih ⟨d, hmem, hnone⟩
        simp only [exceptTerms, cellTerm, hc, this]

lemma relax_probeT2zero : probeT2zero.relax_B_dot_mu 1 0 = Except.ok 0 := by
  have h : exceptTerms mat0.T2 1 0 [cellRF] =
      Except.ok ([cellRF].map (specCellContribution mat0.T2 1 0)) :=
    exceptTerms_ok _ _ _ _ (by intro c hc; simp [cellRF] at hc; simp [hc, cellRF])
  simp only [Probe.relax_B_dot_mu, probeT2zero, h, List.map_cons, List.map_nil,
    List.sum_cons, List.sum_nil]
  norm_num [specCellContribution, cellRF]

lemma relax_probeNoRF :
    probeNoRF.relax_B_dot_mu 1 0 = Except.error PyError.attributeError := by
  have h : exceptTerms mat1.T2 1 0 [cell0] = Except.error PyError.attributeError :=
    exceptTerms_err _ _ _ _ ⟨cell0, by simp, rfl⟩
  simp only [Probe.relax_B_dot_mu, probeNoRF, h]

/-- C1: for every RF-excited probe ensemble, every time `t` and mix-down
frequency, `integrate_signal` (= `relax_B_dot_mu`) returns the sum over
all cells of `B1.x · muT·sin((γₚ|B0|−mix)t)·e^{−t/T2} +
B1.y · muT·cos((γₚ|B0|−mix)t)·e^{−t/T2} + B1.z · mu_z`, built from each
cell's stored local values and the material's `T2`. -/
theorem relax_B_dot_mu_eq_specIntegrateSignal (p : Probe) (t mix : ℝ)
    (h : ∀ c ∈ p.cells, c.rf.isSome) :
    p.relax_B_dot_mu t mix = Except.ok (specIntegrateSignal p t mix) := by
  simp only [Probe.relax_B_dot_mu, exceptTerms_ok _ _ _ _ h, specIntegrateSignal]

/-- Witness for C1 at a concrete one-cell RF-excited probe. -/
theorem relax_B_dot_mu_eq_specIntegrateSignal_witness :
    (∀ c ∈ probeT2zero.cells, c.rf.isSome) ∧
    probeT2zero.relax_B_dot_mu 1 0 =
      Except.ok (specIntegrateSignal probeT2zero 1 0) :=
  ⟨by intro c hc; simp [probeT2zero] at hc; simp [hc, cellRF],
   relax_B_dot_mu_eq_specIntegrateSignal probeT2zero 1 0
     (by intro c hc; simp [probeT2zero] at hc; simp [hc, cellRF])⟩

/-- Modelled from the spec (claim C2's wording): the per-cell state that
`apply_rf_field(rf_source, duration)` is claimed to store —
`mu_x = mu_y = sin(γₚ·|B1|/2·duration)`, `mu_z = cos(γₚ·|B1|/2·duration)`
with `B1` the RF field at the cell's position, `mu_T = sqrt(mu_x²+mu_y²)`. -/
noncomputable def specRFState (rf : ℝ → ℝ → ℝ → Vector3D) (dur : ℝ)
    (c : Cell) : RFState :=
  { B1 := rf c.x c.y c.z
    mu_x := Real.sin (γₚ * (rf c.x c.y c.z).mag / 2 * dur)
    mu_y := Real.sin (γₚ * (rf c.x c.y c.z).mag / 2 * dur)
    mu_z := Real.cos (γₚ * (rf c.x c.y c.z).mag / 2 * dur)
    mu_T := Real.sqrt (Real.sin (γₚ * (rf c.x c.y c.z).mag / 2 * dur) ^ 2 +
                       Real.sin (γₚ * (rf c.x c.y c.z).mag / 2 * dur) ^ 2) }

/-- The identity rotation state claimed for duration 0:
`mu_z = 1`, `mu_x = mu_y = 0`. -/
noncomputable def specRFStateZero (rf : ℝ → ℝ → ℝ → Vector3D) (c : Cell) :
    RFState :=
  { B1 := rf c.x c.y c.z, mu_x := 0, mu_y := 0, mu_z := 1, mu_T := 0 }

/-- C2: `apply_rf_field(rf_source, duration)` sets, for every cell,
`mu_x = mu_y = sin(γₚ|B1|/2·duration)` and `mu_z = cos(γₚ|B1|/2·duration)`
with `B1` the RF field at that cell's position, and `mu_T = sqrt(mu_x²+mu_y²)`;
with duration 0 every cell ends with `mu_z = 1` and `mu_x = mu_y = 0`. -/
theorem apply_rf_field_spec (p : Probe) (rf : ℝ → ℝ → ℝ → Vector3D)
    (dur : ℝ) (i : ℕ) :
    ((p.apply_rf_field rf dur).cells[i]? =
      (p.cells[i]?).map (fun c => { c with rf := some (specRFState rf dur c) })) ∧
    ((p.apply_rf_field rf dur).cells.map (fun c => c.rf.map RFState.mu_T) =
      (p.apply_rf_field rf dur).cells.map (fun c =>
        c.rf.map (fun s => Real.sqrt (s.mu_x ^ 2 + s.mu_y ^ 2)))) ∧
    ((p.apply_rf_field rf 0).cells[i]? =
      (p.cells[i]?).map (fun c => { c with rf := some (specRFStateZero rf c) })) := by
  refine ⟨?_, ?_, ?_⟩
  · simp [Probe.apply_rf_field, List.getElem?_map, specRFState]
  · simp [Probe.apply_rf_field]
  · simp [Probe.apply_rf_field, List.getElem?_map, specRFStateZero, mul_zero,
      Real.sin_zero, Real.cos_zero, Real.sqrt_zero]

/-- C9 counterexample: the magnetization after `apply_rf_field` is not
normalized.  For a cell where `|B1| = 1` and duration `π/γₚ`, the tip
angle is `π/2` and `mu_x² + mu_y² + mu_z² = 1 + 1 + 0 = 2 ≠ 1` (the
source sets `mu_x` and `mu_y` to the same `sin`). -/
theorem apply_rf_field_norm_counterexample :
    ((probeNoRF.apply_rf_field (fun _ _ _ => { x := 0, y := 0, z := 1 })
        (Real.pi / γₚ)).cells.map (fun c =>
      c.rf.map (fun s => s.mu_x ^ 2 + s.mu_y ^ 2 + s.mu_z ^ 2))) = [some 2] ∧
    (2 : ℝ) ≠ 1 := by
  constructor
  · have hmag : (Vector3D.mag { x := 0, y := 0, z := 1 }) = 1 := by
      simp [Vector3D.mag]
    have hγ : γₚ ≠ 0 := by norm_num [γₚ]
    have hangle : γₚ * (Vector3D.mag { x := 0, y := 0, z := 1 }) / 2 *
        (Real.pi / γₚ) = Real.pi / 2 := by
      rw [hmag]
      field_simp
      ring
    simp only [Probe.apply_rf_field, probeNoRF, List.map_cons, List.map_nil,
      Option.map_some', hangle, Real.sin_pi_div_two, Real.cos_pi_div_two]
    norm_num
  · norm_num

/-- C9 amended: after any call to `apply_rf_field`, each cell's
magnetization satisfies `mu_x = mu_y` and `mu_x² + mu_z² = 1`, so the full
squared norm is `1 + mu_x²` — normalized only when the transverse
component vanishes (the source assigns the same `sin` to `mu_x` and
`mu_y`). -/
theorem apply_rf_field_norm_amended (p : Probe) (rf : ℝ → ℝ → ℝ → Vector3D)
    (dur : ℝ) (c : Cell) (s : RFState)
    (hc : c ∈ (p.apply_rf_field rf dur).cells) (hs : c.rf = some s) :
    s.mu_x = s.mu_y ∧ s.mu_x ^ 2 + s.mu_z ^ 2 = 1 ∧
      s.mu_x ^ 2 + s.mu_y ^ 2 + s.mu_z ^ 2 = 1 + s.mu_x ^ 2 := by
  simp only [Probe.apply_rf_field, List.mem_map] at hc
  obtain ⟨c0, _, rfl⟩ := hc
  simp only [Option.some.injEq] at hs
  subst hs
  have h := Real.sin_sq_add_cos_sq (γₚ * (rf c0.x c0.y c0.z).mag / 2 * dur)
  exact ⟨rfl, h, by linear_combination h⟩

/-- Witness for the amended C9 at a concrete probe and zero duration. -/
theorem apply_rf_field_norm_amended_witness :
    (({ cell0 with rf := some (specRFState (fun _ _ _ => { x := 0, y := 0, z := 1 }) 0 cell0) } : Cell)
        ∈ (probeNoRF.apply_rf_field (fun _ _ _ => { x := 0, y := 0, z := 1 }) 0).cells) ∧
    (({ cell0 with rf := some (specRFState (fun _ _ _ => { x := 0, y := 0, z := 1 }) 0 cell0) } : Cell).rf
        = some (specRFState (fun _ _ _ => { x := 0, y := 0, z := 1 }) 0 cell0)) ∧
    ((specRFState (fun _ _ _ => { x := 0, y := 0, z := 1 }) 0 cell0).mu_x =
      (specRFState (fun _ _ _ => { x := 0, y := 0, z := 1 }) 0 cell0).mu_y ∧
     (specRFState (fun _ _ _ => { x := 0, y := 0, z := 1 }) 0 cell0).mu_x ^ 2 +
      (specRFState (fun _ _ _ => { x := 0, y := 0, z := 1 }) 0 cell0).mu_z ^ 2 = 1 ∧
     (specRFState (fun _ _ _ => { x := 0, y := 0, z := 1 }) 0 cell0).mu_x ^ 2 +
      (specRFState (fun _ _ _ => { x := 0, y := 0, z := 1 }) 0 cell0).mu_y ^ 2 +
      (specRFState (fun _ _ _ => { x := 0, y := 0, z := 1 }) 0 cell0).mu_z ^ 2 =
      1 + (specRFState (fun _ _ _ => { x := 0, y := 0, z := 1 }) 0 cell0).mu_x ^ 2) := by
  refine ⟨?_, rfl, ?_⟩
  · simp [Probe.apply_rf_field, probeNoRF, specRFState, cell0]
  · exact apply_rf_field_norm_amended probeNoRF
      (fun _ _ _ => { x := 0, y := 0, z := 1 }) 0
      ({ cell0 with rf := some (specRFState (fun _ _ _ => { x := 0, y := 0, z := 1 }) 0 cell0) })
      (specRFState (fun _ _ _ => { x := 0, y := 0, z := 1 }) 0 cell0)
      (by simp [Probe.apply_rf_field, probeNoRF, specRFState, cell0]) rfl

/-- C4 counterexample: `relax_B_dot_mu` has no error handling.  On a
concrete RF-excited probe whose material has `T2 = 0` it returns a value
rather than raising `InvalidMaterial`; called before `apply_rf_field` it
raises Python's `AttributeError` (accessing the missing `mu_T`/`B1`
attributes), which is not an `OrderingError`. -/
theorem relax_B_dot_mu_errors_counterexample :
    probeT2zero.material.T2 = 0 ∧
    probeT2zero.relax_B_dot_mu 1 0 = Except.ok 0 ∧
    probeNoRF.relax_B_dot_mu 1 0 = Except.error PyError.attributeError ∧
    PyError.attributeError ≠ PyError.orderingError := by
  exact ⟨rfl, relax_probeT2zero, relax_probeNoRF, by decide⟩

/-- C4 amended: `relax_B_dot_mu` performs no validation.  Called before
`apply_rf_field` (some cell lacks the RF attributes) it fails with
`AttributeError`, not `OrderingError`; on a fully excited ensemble it
always returns a value — in particular it never raises `InvalidMaterial`
for `T2 = 0` (numpy division by zero yields Inf, not an exception). -/
theorem relax_B_dot_mu_errors_amended (p : Probe) (t mix : ℝ) :
    ((∃ c ∈ p.cells, c.rf = none) →
      p.relax_B_dot_mu t mix = Except.error PyError.attributeError) ∧
    ((∀ c ∈ p.cells, c.rf.isSome) →
      ∃ r : ℝ, p.relax_B_dot_mu t mix = Except.ok r) := by
  constructor
  · intro h
    simp only [Probe.relax_B_dot_mu, exceptTerms_err _ _ _ _ h]
  · intro h
    refine ⟨(p.cells.map (specCellContribution p.material.T2 t mix)).sum, ?_⟩
    simp only [Probe.relax_B_dot_mu, exceptTerms_ok _ _ _ _ h]

/-- Witness for the amended C4 at concrete probes. -/
theorem relax_B_dot_mu_errors_amended_witness :
    (probeNoRF.relax_B_dot_mu 1 0 = Except.error PyError.attributeError) ∧
    (∃ r : ℝ, probeT2zero.relax_B_dot_mu 1 0 = Except.ok r) :=
  ⟨(relax_B_dot_mu_errors_amended probeNoRF 1 0).1 ⟨cell0, by simp [probeNoRF], rfl⟩,
   (relax_B_dot_mu_errors_amended probeT2zero 1 0).2
     (by intro c hc; simp [probeT2zero] at hc; simp [hc, cellRF])⟩

/-- A concrete pickup coil whose drive current is zero. -/
def coil0 : Coil := { turns := 30, length := 1, radius := 1, current := 0 }

/-- C5 counterexample: calling `pickup_flux` on a coil with `current == 0`
does not fail with a division-by-zero error; the numpy float division is
non-raising (the model's total real division), so on a concrete ensemble
the call returns a value. -/
theorem pickup_flux_zero_current_counterexample :
    coil0.current = 0 ∧
    coil0.pickup_flux probeT2zero 1 0 = Except.ok 0 ∧
    (Except.ok (0 : ℝ) : Except PyError ℝ) ≠ Except.error PyError.zeroDivisionError := by
  refine ⟨rfl, ?_, by simp⟩
  simp only [Coil.pickup_flux, relax_probeT2zero]
  norm_num

/-- C5 amended: for every coil (any current, zero included), every
ensemble, time and mix-down frequency on which the ensemble signal
evaluates, `pickup_flux` returns `turns * integrate_signal / current`;
with `current == 0` it does not raise, the division following numpy float
semantics (total division in the model). -/
theorem pickup_flux_amended (c : Coil) (p : Probe) (t mix r : ℝ)
    (h : p.relax_B_dot_mu t mix = Except.ok r) :
    c.pickup_flux p t mix = Except.ok (c.turns * r / c.current) := by
  simp only [Coil.pickup_flux, h]

/-- Witness for the amended C5 at a zero-current coil. -/
theorem pickup_flux_amended_witness :
    coil0.pickup_flux probeT2zero 1 0 =
      Except.ok (coil0.turns * 0 / coil0.current) :=
  pickup_flux_amended coil0 probeT2zero 1 0 0 relax_probeT2zero

/-- C8: ensemble construction is deterministic in its parameters and the
per-construction seed alone: for any model of the seeded `RandomState`
stream, two constructions with identical parameters and seed yield equal
probes (hence bit-identical cell positions and stored static fields), and
the process-wide random state plays no role. -/
theorem probe_init_deterministic (e1 e2 : NumpyEnv) (L D : ℝ)
    (mat : Material) (temp : ℝ) (Bf : ℝ → ℝ → ℝ → Vector3D) (N : ℕ)
    (seed : ℕ) (h : e1.mt = e2.mt) :
    Probe.init e1 L D mat temp Bf N seed = Probe.init e2 L D mat temp Bf N seed ∧
    (Probe.init e1 L D mat temp Bf N seed).cells =
      (Probe.init e2 L D mat temp Bf N seed).cells := by
  obtain ⟨m1, g1⟩ := e1
  obtain ⟨m2, g2⟩ := e2
  simp only [NumpyEnv.mt] at h
  subst h
  exact ⟨rfl, rfl⟩

/-- Witness for C8: two environments sharing the generator model but with
different process-wide streams produce the same ensemble. -/
theorem probe_init_deterministic_witness :
    Probe.init { mt := fun _ _ lo _ _ => lo, globalStream := fun _ => 0 }
        1 1 mat1 1 (fun _ _ _ => { x := 0, y := 0, z := 1 }) 1 12345 =
      Probe.init { mt := fun _ _ lo _ _ => lo, globalStream := fun _ => 1 }
        1 1 mat1 1 (fun _ _ _ => { x := 0, y := 0, z := 1 }) 1 12345 :=
  (probe_init_deterministic
    { mt := fun _ _ lo _ _ => lo, globalStream := fun _ => 0 }
    { mt := fun _ _ lo _ _ => lo, globalStream := fun _ => 1 }
    1 1 mat1 1 (fun _ _ _ => { x := 0, y := 0, z := 1 }) 1 12345 rfl).1

lemma cexp_ofReal_neg_pi : Complex.exp (((-Real.pi : ℝ) : ℂ) * Complex.I) = -1 := by
  push_cast
  rw [neg_mul, Complex.exp_neg, Complex.exp_pi_mul_I]
  norm_num

lemma cexp_ofReal_pi : Complex.exp (((Real.pi : ℝ) : ℂ) * Complex.I) = -1 :=
  Complex.exp_pi_mul_I

lemma dft_pair : dft [(1 : ℂ), -1] = [0, 2] := by
  simp only [dft, List.length_cons, List.length_nil]
  norm_num [List.range_succ, Finset.sum_range_succ, List.getD]
  rw [Complex.exp_neg, Complex.exp_pi_mul_I]
  norm_num

lemma idft_pair : idft [(0 : ℂ), 2] = [1, -1] := by
  simp only [idft, List.length_cons, List.length_nil]
  norm_num [List.range_succ, Finset.sum_range_succ, List.getD]

lemma scipyHilbert_pair : scipyHilbert [(1 : ℝ), -1] = [1, -1] := by
  have hmap : ([(1 : ℝ), -1]).map Complex.ofReal = [(1 : ℂ), -1] := by
    norm_num [Complex.ofReal_neg, Complex.ofReal_one]
  have hmult : (List.range 2).map
      (fun k => hilbertMultiplier 2 k * ([(0 : ℂ), 2]).getD k 0) = [0, 2] := by
    norm_num [List.range_succ, hilbertMultiplier, List.getD]
  simp only [scipyHilbert, List.length_cons, List.length_nil, hmap, dft_pair]
  rw [show (1 + 1 : ℕ) = 2 from rfl] at *
  rw [hmult, idft_pair]

/-- The concrete demodulator state for `times = [0, 1]`, `flux = [1, -1]`
with unit conversion factors 1: the stored analytic signal is `[1, -1]`
(a Nyquist-frequency input has a vanishing discrete Hilbert transform). -/
noncomputable def H0 : HilbertTransform :=
  { time := [0, 1], flux := [1, -1], h := [1, -1] }

lemma H0_init : HilbertTransform.init 1 1 [0, 1] [1, -1] = Except.ok H0 := by
  simp only [HilbertTransform.init, List.length_cons, List.length_nil]
  norm_num [H0, scipyHilbert_pair]

lemma H0_phase : (H0.PhaseFunction).2 = [0, Real.pi] := by
  have himag : H0.imag = [0, 0] := by
    simp [HilbertTransform.imag, H0]
  have hreal : H0.real = [1, -1] := by
    simp [HilbertTransform.real, H0]
  simp only [HilbertTransform.PhaseFunction, himag, hreal, H0]
  norm_num [npSign, List.zipWith, cumsum, cumsumFrom, Real.arctan_zero]

lemma H0_spec_phase : (specPhaseFunction H0).2 = [0, 2 * Real.pi] := by
  have himag : H0.imag = [0, 0] := by
    simp [HilbertTransform.imag, H0]
  have hreal : H0.real = [1, -1] := by
    simp [HilbertTransform.real, H0]
  have h1 : atan2 0 1 = 0 := by
    simp [atan2, Complex.arg_one]
  have h2 : atan2 0 (-1) = Real.pi := by
    norm_num [atan2, Complex.arg_neg_one]
  simp only [specPhaseFunction, himag, hreal, H0]
  norm_num [npSign, List.zipWith, cumsum, cumsumFrom, h1, h2]
  ring

/-- C3 counterexample: the demodulator's raw phase is not
`atan2(imag, real)`.  For `times = [0, 1]`, `flux = [1, -1]` the analytic
signal is `[1, -1]`; the code returns phase `[0, π]` (the `arctan2`
assignment is immediately overwritten by `arctan(imag/real)`, and
`arctan(0 / (-1)) = 0`), while the claimed `atan2`-based phase is
`[0, 2π]` since `atan2(0, -1) = π`. -/
theorem PhaseFunction_atan2_counterexample :
    HilbertTransform.init 1 1 [0, 1] [1, -1] = Except.ok H0 ∧
    (H0.PhaseFunction).2 = [0, Real.pi] ∧
    (specPhaseFunction H0).2 = [0, 2 * Real.pi] ∧
    ([0, Real.pi] : List ℝ) ≠ [0, 2 * Real.pi] := by
  refine ⟨H0_init, H0_phase, H0_spec_phase, ?_⟩
  simp only [ne_eq, List.cons.injEq, and_true, true_and]
  intro h
  have := Real.pi_pos
  linarith

lemma cumsumFrom_length (l : List ℝ) : ∀ a : ℝ, (cumsumFrom a l).length = l.length := by
  induction l with
  | nil => intro a; rfl
  | cons x xs ih => intro a; simp [cumsumFrom, ih]

lemma zipWith_getD (f : ℝ → ℝ → ℝ) :
    ∀ (u v : List ℝ) (i : ℕ), i < u.length → i < v.length →
      (List.zipWith f u v).getD i 0 = f (u.getD i 0) (v.getD i 0)
  | [], _, i, hu, _ => by simp at hu
  | _ :: _, [], i, _, hv => by simp at hv
  | a :: u, b :: v, 0, _, _ => rfl
  | a :: u, b :: v, i + 1, hu, hv =>
    zipWith_getD f u v i (Nat.lt_of_succ_lt_succ hu) (Nat.lt_of_succ_lt_succ hv)

lemma cons_cumsumFrom_getD :
    ∀ (l : List ℝ) (a : ℝ) (i : ℕ), i ≤ l.length →
      ((a :: cumsumFrom a l).getD i 0) = a + (l.take i).sum
  | l, a, 0, _ => by simp
  | [], a, i + 1, h => by simp at h
  | x :: xs, a, i + 1, h => by
    have := cons_cumsumFrom_getD xs (a + x) i (Nat.le_of_succ_le_succ h)
    simpa [cumsumFrom, List.getD_cons_succ, add_assoc] using this

lemma steps_take_sum :
    ∀ (l : List ℝ) (i : ℕ),
      ((List.zipWith
          (fun prev next => if npSign next = npSign prev then (0 : ℝ) else Real.pi)
          l.dropLast l.tail).take i).sum =
        Real.pi * countSignChanges (l.take (i + 1))
  | [], i => by simp [countSignChanges]
  | [a], i => by
    cases i <;> simp [countSignChanges]
  | a :: b :: r, 0 => by simp [countSignChanges]
  | a :: b :: r, j + 1 => by
    have ih := steps_take_sum (b :: r) j
    have hd : (a :: b :: r).dropLast = a :: (b :: r).dropLast := rfl
    have ht : (a :: b :: r).tail = b :: r := rfl
    have htk : (a :: b :: r).take (j + 1 + 1) = a :: (b :: r).take (j + 1) := rfl
    rw [hd, ht, List.zipWith_cons_cons, List.take_succ_cons, List.sum_cons, htk]
    have htk2 : (b :: r).take (j + 1) = b :: r.take j := rfl
    rw [htk2]
    have hcount : countSignChanges (a :: b :: r.take j) =
        (if npSign b = npSign a then 0 else 1) + countSignChanges (b :: r.take j) := rfl
    rw [hcount]
    have ht2 : (b :: r).tail = r := rfl
    rw [ht2, htk2] at ih
    rw [ih]
    push_cast
    split_ifs <;> ring

/-- C3 amended: the demodulator's raw phase is `arctan(imag/real)` — the
`atan2(imag, real)` assignment in the source is dead, immediately
overwritten — and the returned phase at every index adds π times the
running count of sign changes of the raw waveform up to that index to the
`arctan`-based phase (the π-per-half-cycle step matches the `arctan`
half-period; the result is not wrapped into `(−π, π]`). -/
theorem PhaseFunction_arctan_amended (H : HilbertTransform) (i : ℕ)
    (hlen : H.flux.length = H.h.length) (hi : i < H.h.length) :
    (H.PhaseFunction).2.getD i 0 =
      Real.arctan (H.imag.getD i 0 / H.real.getD i 0) +
      Real.pi * countSignChanges (H.flux.take (i + 1)) := by
  have himag : H.imag.length = H.h.length := List.length_map _ _
  have hreal : H.real.length = H.h.length := List.length_map _ _
  have hphilen : (List.zipWith (fun im re => Real.arctan (im / re))
      H.imag H.real).length = H.h.length := by
    rw [List.length_zipWith, himag, hreal, min_self]
  have hstepslen : (List.zipWith
      (fun prev next => if npSign next = npSign prev then (0 : ℝ) else Real.pi)
      H.flux.dropLast H.flux.tail).length = H.flux.length - 1 := by
    rw [List.length_zipWith, List.length_dropLast, List.length_tail, min_self]
  have hile : i ≤ H.flux.length - 1 := by omega
  have h2 : (H.PhaseFunction).2 =
      List.zipWith (fun a b => a + b)
        (List.zipWith (fun im re => Real.arctan (im / re)) H.imag H.real)
        ((0 : ℝ) :: cumsum (List.zipWith
          (fun prev next => if npSign next = npSign prev then (0 : ℝ) else Real.pi)
          H.flux.dropLast H.flux.tail)) := rfl
  rw [h2, zipWith_getD _ _ _ i (by omega)
    (by simp only [List.length_cons, cumsum, cumsumFrom_length]; omega)]
  rw [zipWith_getD _ _ _ i (by omega) (by omega)]
  rw [cumsum, cons_cumsumFrom_getD _ 0 i (by omega), steps_take_sum H.flux i,
    zero_add]

/-- Witness for the amended C3 at the concrete demodulator state `H0`. -/
theorem PhaseFunction_arctan_amended_witness :
    (H0.flux.length = H0.h.length ∧ 1 < H0.h.length) ∧
    (H0.PhaseFunction).2.getD 1 0 =
      Real.arctan (H0.imag.getD 1 0 / H0.real.getD 1 0) +
      Real.pi * countSignChanges (H0.flux.take (1 + 1)) :=
  ⟨⟨by simp [H0], by simp [H0]⟩,
   PhaseFunction_arctan_amended H0 1 (by simp [H0]) (by simp [H0])⟩

lemma getD_map_mul_complex (c : ℂ) :
    ∀ (l : List ℂ) (n : ℕ), (l.map (fun z => c * z)).getD n 0 = c * l.getD n 0
  | [], n => by simp
  | x :: xs, 0 => rfl
  | x :: xs, n + 1 => getD_map_mul_complex c xs n

lemma dft_smul (c : ℂ) (x : List ℂ) :
    dft (x.map (fun z => c * z)) = (dft x).map (fun z => c * z) := by
  simp only [dft, List.length_map, List.map_map]
  refine List.map_congr_left ?_
  intro k _
  simp only [Function.comp]
  rw [Finset.mul_sum]
  refine Finset.sum_congr rfl ?_
  intro n _
  rw [getD_map_mul_complex]
  ring

lemma idft_smul (c : ℂ) (X : List ℂ) :
    idft (X.map (fun z => c * z)) = (idft X).map (fun z => c * z) := by
  simp only [idft, List.length_map, List.map_map]
  congr 1
  funext n
  simp only [Function.comp]
  have h : (∑ k ∈ Finset.range X.length,
      (X.map (fun z => c * z)).getD k 0 *
        Complex.exp (((2 * Real.pi * k * n / X.length : ℝ) : ℂ) * Complex.I)) =
      c * ∑ k ∈ Finset.range X.length,
        X.getD k 0 *
          Complex.exp (((2 * Real.pi * k * n / X.length : ℝ) : ℂ) * Complex.I) := by
    rw [Finset.mul_sum]
    refine Finset.sum_congr rfl ?_
    intro k _
    rw [getD_map_mul_complex]
    ring
  rw [h]
  ring

lemma scipyHilbert_smul (c : ℝ) (x : List ℝ) :
    scipyHilbert (x.map (fun r => c * r)) =
      (scipyHilbert x).map (fun z => (c : ℂ) * z) := by
  simp only [scipyHilbert, List.length_map]
  have h1 : ∀ y : List ℝ, (y.map (fun r => c * r)).map Complex.ofReal =
      (y.map Complex.ofReal).map (fun z => (c : ℂ) * z) := by
    intro y
    induction y with
    | nil => rfl
    | cons r ys ih => simp only [List.map_cons, ih, Complex.ofReal_mul]
  rw [h1, dft_smul]
  have h2 : (List.range x.length).map
      (fun k => hilbertMultiplier x.length k *
        ((dft (x.map Complex.ofReal)).map (fun z => (c : ℂ) * z)).getD k 0) =
      ((List.range x.length).map
        (fun k => hilbertMultiplier x.length k *
          (dft (x.map Complex.ofReal)).getD k 0)).map (fun z => (c : ℂ) * z) := by
    simp only [List.map_map]
    congr 1
    funext k
    simp only [Function.comp]
    rw [getD_map_mul_complex]
    ring
  rw [h2, idft_smul]

lemma npSign_mul (c x : ℝ) (hc : 0 < c) : npSign (c * x) = npSign x := by
  unfold npSign
  rcases lt_trichotomy 0 x with hx | hx | hx
  · rw [if_pos hx, if_pos (mul_pos hc hx)]
  · rw [← hx, mul_zero]
  · have h1 : ¬ 0 < x := not_lt.mpr hx.le
    have h2 : c * x < 0 := mul_neg_of_pos_of_neg hc hx
    rw [if_neg (not_lt.mpr h2.le), if_neg h1, if_pos h2, if_pos hx]

lemma zipWithCongr {α β γ : Type _} (f g : α → β → γ)
    (h : ∀ a b, f a b = g a b) :
    ∀ (u : List α) (v : List β), List.zipWith f u v = List.zipWith g u v
  | [], _ => rfl
  | _ :: _, [] => rfl
  | a :: u, b :: v => by
    rw [List.zipWith_cons_cons, List.zipWith_cons_cons, h,
      zipWithCongr f g h u v]

lemma map_im_smul (c : ℝ) :
    ∀ l : List ℂ, (l.map (fun z => (c : ℂ) * z)).map Complex.im =
      (l.map Complex.im).map (fun r => c * r)
  | [] => rfl
  | z :: zs => by
    simp only [List.map_cons, map_im_smul c zs, List.cons.injEq, and_true]
    simp [Complex.mul_im]

lemma map_re_smul (c : ℝ) :
    ∀ l : List ℂ, (l.map (fun z => (c : ℂ) * z)).map Complex.re =
      (l.map Complex.re).map (fun r => c * r)
  | [] => rfl
  | z :: zs => by
    simp only [List.map_cons, map_re_smul c zs, List.cons.injEq, and_true]
    simp [Complex.mul_re]

lemma PhaseFunction_smul (T F : List ℝ) (c : ℝ) (hc : 0 < c) :
    HilbertTransform.PhaseFunction
      { time := T, flux := F.map (fun f => c * f),
        h := scipyHilbert (F.map (fun f => c * f)) } =
    HilbertTransform.PhaseFunction
      { time := T, flux := F, h := scipyHilbert F } := by
  have hc0 : c ≠ 0 := ne_of_gt hc
  simp only [HilbertTransform.PhaseFunction, HilbertTransform.imag,
    HilbertTransform.real, scipyHilbert_smul c F]
  congr 1
  rw [map_im_smul, map_re_smul, List.zipWith_map]
  have hphi : List.zipWith
      (fun a b => Real.arctan (c * a / (c * b)))
      ((scipyHilbert F).map Complex.im) ((scipyHilbert F).map Complex.re) =
      List.zipWith (fun im re => Real.arctan (im / re))
        ((scipyHilbert F).map Complex.im) ((scipyHilbert F).map Complex.re) :=
    zipWithCongr _ _ (fun a b => by rw [mul_div_mul_left a b hc0]) _ _
  rw [hphi]
  have hdl : (F.map (fun f => c * f)).dropLast = F.dropLast.map (fun f => c * f) :=
    (List.map_dropLast _ _).symm
  have htl : (F.map (fun f => c * f)).tail = F.tail.map (fun f => c * f) :=
    (List.map_tail _ _).symm
  rw [hdl, htl]
  have hsteps2 : List.zipWith
      (fun prev next => if npSign next = npSign prev then (0 : ℝ) else Real.pi)
      (F.dropLast.map (fun f => c * f)) (F.tail.map (fun f => c * f)) =
      List.zipWith
        (fun prev next => if npSign next = npSign prev then (0 : ℝ) else Real.pi)
        F.dropLast F.tail := by
    rw [List.zipWith_map]
    exact zipWithCongr _ _
      (fun a b => by rw [npSign_mul c b hc, npSign_mul c a hc]) _ _
  rw [hsteps2]

/-- C10: phase demodulation is invariant under positive rescaling of the
input amplitude: for every equal-length `times`/`flux` pair and every
`c > 0`, `HilbertTransform(times, c*flux).PhaseFunction()` returns exactly
the same time and phase sequences as
`HilbertTransform(times, flux).PhaseFunction()` (and construction fails
identically when lengths mismatch). -/
theorem PhaseFunction_scale_invariant (msU uVU c : ℝ) (times flux : List ℝ)
    (hc : 0 < c) :
    Except.map HilbertTransform.PhaseFunction
        (HilbertTransform.init msU uVU times (flux.map (fun f => c * f))) =
      Except.map HilbertTransform.PhaseFunction
        (HilbertTransform.init msU uVU times flux) := by
  simp only [HilbertTransform.init, List.length_map]
  by_cases h : times.length ≠ flux.length
  · rw [if_pos h, if_pos h]
  · rw [if_neg h, if_neg h]
    have hdiv : (flux.map (fun f => c * f)).map (fun f => f / uVU) =
        (flux.map (fun f => f / uVU)).map (fun f => c * f) := by
      simp only [List.map_map]
      congr 1
      funext f
      simp only [Function.comp]
      rw [mul_div_assoc]
    simp only [Except.map, hdiv]
    rw [PhaseFunction_smul _ _ _ hc]

/-- Witness for C10 at a concrete input and scale factor 2. -/
theorem PhaseFunction_scale_invariant_witness :
    (0 : ℝ) < 2 ∧
    Except.map HilbertTransform.PhaseFunction
        (HilbertTransform.init 1 1 [0, 1] (([1, -1] : List ℝ).map (fun f => 2 * f))) =
      Except.map HilbertTransform.PhaseFunction
        (HilbertTransform.init 1 1 [0, 1] [1, -1]) :=
  ⟨by norm_num, PhaseFunction_scale_invariant 1 1 2 [0, 1] [1, -1] (by norm_num)⟩

lemma foldl_max_zero : ∀ ys : List ℝ, (∀ y ∈ ys, y = 0) →
    List.foldl max (0 : ℝ) ys = 0
  | [], _ => rfl
  | y :: ys, h => by
    have hy : y = 0 := h y (List.mem_cons_self y ys)
    have hys := foldl_max_zero ys (fun z hz => h z (List.mem_cons_of_mem y hz))
    simp [hy, hys]

lemma zip_const_zero_snd (l : List ℝ) (q : ℝ × ℝ)
    (hq : q ∈ l.zip (l.map (fun _ => (0 : ℝ)))) : q.2 = 0 := by
  have := List.of_mem_zip hq
  rcases this with ⟨_, h2⟩
  rcases List.mem_map.mp h2 with ⟨_, _, h⟩
  exact h.symm

lemma get_fit_range_zero_env (pret rl : Option ℝ) (edge frac : ℝ)
    (time : List ℝ) (hne : time ≠ []) :
    get_fit_range pret rl edge frac time (time.map (fun _ => 0)) =
      Except.error PyError.valueError := by
  obtain ⟨t, ts, rfl⟩ : ∃ t ts, time = t :: ts := by
    cases time with
    | nil => exact absurd rfl hne
    | cons t ts => exact ⟨t, ts, rfl⟩
  simp only [get_fit_range, npMinE, npMaxE, List.map_cons, bind, Except.bind]
  cases hw : List.filter (edgeMask (clampLow pret (List.foldl min t ts))
      (clampHigh rl (List.foldl max t ts)) edge)
      ((t :: ts).zip (0 :: List.map (fun x => (0 : ℝ)) ts)) with
  | nil => simp only [hw, List.map_nil]
  | cons q qs =>
    have hmem : ∀ p ∈ q :: qs,
        p ∈ (t :: ts).zip (0 :: List.map (fun x => (0 : ℝ)) ts) := by
      intro p hp
      rw [← hw] at hp
      exact List.mem_of_mem_filter hp
    have hq2 : q.2 = 0 :=
      zip_const_zero_snd (t :: ts) q (hmem q (List.mem_cons_self q qs))
    have hqs : ∀ y ∈ qs.map Prod.snd, y = 0 := by
      intro y hy
      rcases List.mem_map.mp hy with ⟨p, hp, rfl⟩
      exact zip_const_zero_snd (t :: ts) p (hmem p (List.mem_cons_of_mem q hp))
    have hmax : List.foldl max q.2 (qs.map Prod.snd) = 0 := by
      rw [hq2]
      exact foldl_max_zero _ hqs
    have hfil2 : List.filter
        (fun p => edgeMask (clampLow pret (List.foldl min t ts))
            (clampHigh rl (List.foldl max t ts)) edge p &&
          decide ((0 : ℝ) * frac < p.2))
        ((t :: ts).zip (0 :: List.map (fun x => (0 : ℝ)) ts)) = [] := by
      rw [List.filter_eq_nil_iff]
      intro p hp
      have h0 := zip_const_zero_snd (t :: ts) p hp
      simp only [h0, zero_mul, Bool.and_eq_true, decide_eq_true_eq]
      rintro ⟨-, h⟩
      exact lt_irrefl 0 h
    simp only [hw, List.map_cons, hmax, hfil2, List.map_nil]

lemma npMaxE_all_zero (l : List ℝ) (h : ∀ y ∈ l, y = 0) (m : ℝ)
    (hm : npMaxE l = Except.ok m) : m = 0 := by
  cases l with
  | nil => exact absurd hm (by simp [npMaxE])
  | cons x xs =>
    simp only [npMaxE, Except.ok.injEq] at hm
    have hx : x = 0 := h x (List.mem_cons_self x xs)
    have hxs : ∀ y ∈ xs, y = 0 := fun y hy => h y (List.mem_cons_of_mem x hy)
    rw [← hm, hx]
    exact foldl_max_zero xs hxs

/-- C7 amended: when the envelope nowhere exceeds the threshold
`frac · max(env[mask_edge])` inside the search window, the masked array is
empty and `get_fit_range` fails with numpy's `ValueError` raised by the
empty-array `np.min` reduction — not with a `NoSignalDetected` error,
which the source never defines or raises. -/
theorem get_fit_range_no_signal_amended (pret rl : Option ℝ)
    (edge frac : ℝ) (t : ℝ) (ts env : List ℝ)
    (hbelow : ∀ m : ℝ,
      npMaxE ((((t :: ts).zip env).filter
        (edgeMask (clampLow pret (List.foldl min t ts))
          (clampHigh rl (List.foldl max t ts)) edge)).map Prod.snd) =
        Except.ok m →
      ∀ q ∈ (t :: ts).zip env,
        edgeMask (clampLow pret (List.foldl min t ts))
          (clampHigh rl (List.foldl max t ts)) edge q = true →
        q.2 ≤ m * frac) :
    get_fit_range pret rl edge frac (t :: ts) env =
      Except.error PyError.valueError := by
  simp only [get_fit_range, npMinE, npMaxE, bind, Except.bind]
  cases hw : List.filter (edgeMask (clampLow pret (List.foldl min t ts))
      (clampHigh rl (List.foldl max t ts)) edge) ((t :: ts).zip env) with
  | nil => simp only [hw, List.map_nil]
  | cons q qs =>
    have hm : npMaxE ((((t :: ts).zip env).filter
        (edgeMask (clampLow pret (List.foldl min t ts))
          (clampHigh rl (List.foldl max t ts)) edge)).map Prod.snd) =
        Except.ok (List.foldl max q.2 (qs.map Prod.snd)) := by
      simp only [hw, List.map_cons, npMaxE]
    have hfil2 : List.filter
        (fun p => edgeMask (clampLow pret (List.foldl min t ts))
            (clampHigh rl (List.foldl max t ts)) edge p &&
          decide (List.foldl max q.2 (qs.map Prod.snd) * frac < p.2))
        ((t :: ts).zip env) = [] := by
      rw [List.filter_eq_nil_iff]
      intro p hp
      simp only [Bool.and_eq_true, decide_eq_true_eq]
      rintro ⟨hedge, hlt⟩
      exact absurd hlt
        (not_lt.mpr (hbelow (List.foldl max q.2 (qs.map Prod.snd)) hm p hp hedge))
    simp only [hw, List.map_cons, hfil2, List.map_nil]

/-- C7 counterexample: on an all-zero envelope (the claim's example) the
range selection fails with numpy's `ValueError`, not with a
`NoSignalDetected` error (no such error exists in the source). -/
theorem get_fit_range_counterexample :
    get_fit_range none none 1 (Real.exp (-1)) [0, 1, 2, 3, 4]
        [0, 0, 0, 0, 0] = Except.error PyError.valueError ∧
    PyError.valueError ≠ PyError.noSignalDetected := by
  constructor
  · have h : ([0, 0, 0, 0, 0] : List ℝ) =
        ([0, 1, 2, 3, 4] : List ℝ).map (fun _ => 0) := by norm_num
    rw [h]
    exact get_fit_range_zero_env none none 1 (Real.exp (-1)) [0, 1, 2, 3, 4]
      (by simp)
  · decide

/-- Witness for the amended C7: the all-zero envelope discharges the
below-threshold hypothesis. -/
theorem get_fit_range_no_signal_amended_witness :
    get_fit_range none none 1 (Real.exp (-1)) (0 :: [1, 2, 3, 4])
        [0, 0, 0, 0, 0] = Except.error PyError.valueError := by
  refine get_fit_range_no_signal_amended none none 1 (Real.exp (-1)) 0
    [1, 2, 3, 4] [0, 0, 0, 0, 0] ?_
  intro m hm q hq hedge
  have henv : ∀ y ∈ ((((0 : ℝ) :: [1, 2, 3, 4]).zip
      ([0, 0, 0, 0, 0] : List ℝ)).filter
        (edgeMask (clampLow none (List.foldl min 0 [1, 2, 3, 4]))
          (clampHigh none (List.foldl max 0 [1, 2, 3, 4])) 1)).map Prod.snd,
      y = 0 := by
    intro y hy
    rcases List.mem_map.mp hy with ⟨p, hp, rfl⟩
    have hpz := List.mem_of_mem_filter hp
    have := (List.of_mem_zip hpz).2
    simp only [List.mem_cons, List.not_mem_nil, or_false] at this
    rcases this with h | h | h | h | h <;> exact h
  have hm0 : m = 0 := npMaxE_all_zero _ henv m hm
  have hq2 : q.2 = 0 := by
    have := (List.of_mem_zip hq).2
    simp only [List.mem_cons, List.not_mem_nil, or_false] at this
    rcases this with h | h | h | h | h <;> exact h
  rw [hq2, hm0, zero_mul]
